import Mathlib

/-!
# Verification of the vlq-rust variable-length-quantity codecs

Shallow embedding of the three codecs of the repository:

* the standard primitive stream codec (`src/lib.rs`, macro `impl_primitive!`),
  modelled width-generically: every primitive instance works on the value's
  unsigned bit pattern in an accumulator of `w` bits, so `vlqEncode` /
  `vlqFromReader w` cover `u8 … u128`, `usize` and the signed types (which the
  source casts to and from their same-width unsigned pattern);
* the fast fixed-buffer codec (`src/fast.rs`);
* the arbitrary-precision extension (`src/bigint.rs`, `impl Vlq for BigUint`
  via num-bigint's base-radix digit conversions).

Bytes are `Nat` values below 256; machine integers are `Nat` with explicit
`% 2^w` at the points where the Rust source can wrap.
-/

/-- Errors of the stream codecs: `eof` is the `read_exact` end-of-input error,
`overflow` the "provided VLQ data too long to fit" error produced when
`checked_mul`/`checked_add` return `None`, and `badDigit` the panic of the
`from_radix_le(..).unwrap()` call in `bigint.rs`. -/
inductive VlqError where
  | eof
  | overflow
  | badDigit
deriving DecidableEq

/-- Embedding of `Vlq::to_writer` from `impl_primitive!` in `src/lib.rs`:
while `n >= 0x80` emit `n & 0b0111_1111` and shift `n` right by 7, then emit
`0b1000_0000 | n`.  The emitted bytes depend only on the unsigned value, not
on the width, so one definition serves every primitive instance. -/
def vlqEncode (n : Nat) : List Nat :=
  if n < 128 then
    [128 ||| n]
  else
    (n &&& 127) :: vlqEncode (n >>> 7)
termination_by n
decreasing_by
  simp only [Nat.shiftRight_eq_div_pow]
  exact Nat.div_lt_self (by omega) (by omega)

/-- Loop of `Vlq::from_reader` from `impl_primitive!` in `src/lib.rs`, for an
accumulator of `w` bits.  Each step reads one byte `b`, computes
`(b & 0b0111_1111) * shift` with `checked_mul` and adds it to `value` with
`checked_add` (both failing with the overflow error at `2^w`), stops when
`b & 0b1000_0000 != 0`, and otherwise continues with `shift <<= 7`, which is
a wrapping shift in the `w`-bit unsigned type. -/
def vlqFromReaderAux (w : Nat) : List Nat → Nat → Nat → Except VlqError (Nat × List Nat)
  | [], _, _ => .error .eof
  | b :: rest, value, shift =>
    let g := b &&& 127
    if g * shift < 2 ^ w then
      if value + g * shift < 2 ^ w then
        if b &&& 128 ≠ 0 then
          .ok (value + g * shift, rest)
        else
          vlqFromReaderAux w rest (value + g * shift) ((shift <<< 7) % 2 ^ w)
      else
        .error .overflow
    else
      .error .overflow

/-- Embedding of `Vlq::from_reader` from `impl_primitive!` in `src/lib.rs`:
the loop starts with `value = 0` and `shift = 1`.  On success it returns the
decoded unsigned pattern together with the bytes left unread. -/
def vlqFromReader (w : Nat) (bytes : List Nat) : Except VlqError (Nat × List Nat) :=
  vlqFromReaderAux w bytes 0 1

/-- Positional radix-128 value of a byte list read as 7-bit groups,
least-significant group first: the value a VLQ byte source encodes. -/
def radixValue : List Nat → Nat
  | [] => 0
  | b :: rest => (b &&& 127) + 128 * radixValue rest

lemma and_127_eq_mod (b : Nat) : b &&& 127 = b % 128 := by
  have h : (127 : Nat) = 2 ^ 7 - 1 := by norm_num
  rw [h, Nat.and_pow_two_sub_one_eq_mod]

lemma and_127_of_lt {b : Nat} (h : b < 128) : b &&& 127 = b := by
  rw [and_127_eq_mod, Nat.mod_eq_of_lt h]

lemma or_128_and_127 : ∀ b < 128, (128 ||| b) &&& 127 = b := by decide

lemma or_128_and_128 : ∀ b < 128, (128 ||| b) &&& 128 = 128 := by decide

lemma and_128_of_lt : ∀ b < 128, b &&& 128 = 0 := by decide

/-- Key invariant of the decode loop on a valid encoding with any suffix:
with current digit weight `shift` and accumulated `value`, decoding
`vlqEncode n ++ s` yields `value + n * shift` and leaves exactly `s`. -/
lemma vlqFromReaderAux_encode_append (w : Nat) :
    ∀ n value shift s, 0 < shift → value + n * shift < 2 ^ w →
    vlqFromReaderAux w (vlqEncode n ++ s) value shift = .ok (value + n * shift, s) := by
  intro n
  induction n using Nat.strong_induction_on with
  | _ n ih =>
    intro value shift s hshift hbound
    by_cases hn : n < 128
    · rw [vlqEncode, if_pos hn]
      simp only [List.cons_append, List.nil_append, vlqFromReaderAux]
      rw [or_128_and_127 n hn, or_128_and_128 n hn]
      have h1 : n * shift < 2 ^ w := by omega
      rw [if_pos h1, if_pos hbound, if_pos (by omega)]
      rfl
    · rw [vlqEncode, if_neg hn]
      simp only [List.cons_append, vlqFromReaderAux]
      have hblt : n % 128 < 128 := Nat.mod_lt _ (by omega)
      have hbyte : n &&& 127 = n % 128 := and_127_eq_mod n
      have hg : (n &&& 127) &&& 127 = n % 128 := by
        rw [hbyte, and_127_eq_mod]
        omega
      have hterm : (n &&& 127) &&& 128 = 0 := by
        rw [hbyte]
        exact and_128_of_lt _ hblt
      rw [hg, hterm]
      have hdm : 128 * (n / 128) + n % 128 = n := by omega
      have hdiv_pos : 1 ≤ n / 128 := by
        apply Nat.one_le_div_iff (by omega) |>.mpr
        omega
      -- the next digit weight shift * 128 stays below 2 ^ w
      have hshift128 : shift * 128 < 2 ^ w := by
        have : shift * 128 ≤ n / 128 * (shift * 128) := by
          calc shift * 128 = 1 * (shift * 128) := by ring
          _ ≤ n / 128 * (shift * 128) := by
            apply Nat.mul_le_mul_right
            exact hdiv_pos
        nlinarith [hbound, hdm]
      have h1 : n % 128 * shift < 2 ^ w := by nlinarith [hdm, hbound]
      have h2 : value + n % 128 * shift < 2 ^ w := by nlinarith [hdm, hbound]
      rw [if_pos h1, if_pos h2, if_neg (by simp)]
      have hsr : n >>> 7 = n / 128 := by
        rw [Nat.shiftRight_eq_div_pow]
      have hsl : (shift <<< 7) % 2 ^ w = shift * 128 := by
        rw [Nat.shiftLeft_eq]
        norm_num
        exact Nat.mod_eq_of_lt hshift128
      rw [hsr, hsl]
      have hIH := ih (n / 128) (Nat.div_lt_self (by omega) (by omega))
        (value + n % 128 * shift) (shift * 128) s (by positivity) (by nlinarith [hdm])
      have hval : value + n % 128 * shift + n / 128 * (shift * 128) = value + n * shift := by
        nlinarith [hdm]
      rw [hval] at hIH
      simpa using hIH

/-- Round trip with an arbitrary unread suffix: the decoder consumes exactly
the encoding of `n` and returns `n`. -/
lemma vlqFromReader_encode_append (w n : Nat) (s : List Nat) (h : n < 2 ^ w) :
    vlqFromReader w (vlqEncode n ++ s) = .ok (n, s) := by
  have := vlqFromReaderAux_encode_append w n 0 1 s (by omega) (by omega)
  simpa [vlqFromReader] using this

/-!
## Fast fixed-buffer codec (`src/fast.rs`)

The buffer `FastVlq([u8; 9])` is modelled as a `List Nat` of nine bytes.
`bePart m k` is byte `k` (counted from the little end) of the big-endian byte
representation used by `to_be_bytes`, so `u64::to_be_bytes m` is
`[bePart m 7, …, bePart m 0]`.
-/

/-- Byte `k` from the little end of a machine integer, as produced by
`to_be_bytes` after the codec's casts. -/
def bePart (m k : Nat) : Nat :=
  m / 2 ^ (8 * k) % 256

/-- Embedding of `u8::leading_zeros` for a byte value. -/
def u8LeadingZeros (b : Nat) : Nat :=
  if 128 ≤ b then 0
  else if 64 ≤ b then 1
  else if 32 ≤ b then 2
  else if 16 ≤ b then 3
  else if 8 ≤ b then 4
  else if 4 ≤ b then 5
  else if 2 ≤ b then 6
  else if 1 ≤ b then 7
  else 8

/-- Embedding of `decode_len` in `src/fast.rs`: `n.leading_zeros() + 1`. -/
def decodeLen (b : Nat) : Nat :=
  u8LeadingZeros b + 1

/-- Cumulative tier offsets `offset!(1)` … `offset!(9)` of `src/fast.rs`. -/
def offset1 : Nat := 0

def offset2 : Nat := 2 ^ 7

def offset3 : Nat := offset2 + 2 ^ 14

def offset4 : Nat := offset3 + 2 ^ 21

def offset5 : Nat := offset4 + 2 ^ 28

def offset6 : Nat := offset5 + 2 ^ 35

def offset7 : Nat := offset6 + 2 ^ 42

def offset8 : Nat := offset7 + 2 ^ 49

def offset9 : Nat := offset8 + 2 ^ 56

/-- Embedding of `encode_len` in `src/fast.rs`. -/
def encodeLen (n : Nat) : Nat :=
  if n < offset2 then 1
  else if n < offset3 then 2
  else if n < offset4 then 3
  else if n < offset5 then 4
  else if n < offset6 then 5
  else if n < offset7 then 6
  else if n < offset8 then 7
  else if n < offset9 then 8
  else 9

/-- Embedding of `encode` in `src/fast.rs`.  Each arm computes the tier's
`encode_offset!` value `m` (with the wrapping casts and shifts of the source
made explicit as `% 2 ^ 32` / `% 2 ^ 64`), writes its `to_be_bytes` bytes into
the 9-byte buffer, and overwrites byte 0 with the `prefix!`-tagged first
payload byte. -/
def fastEncode (n : Nat) : List Nat :=
  let len := encodeLen n
  if len = 1 then
    [(n % 256) ||| 128, 0, 0, 0, 0, 0, 0, 0, 0]
  else if len = 2 then
    let m := (n % 2 ^ 16 - offset2) % 2 ^ 16
    [(63 &&& bePart m 1) ||| 64, bePart m 0, 0, 0, 0, 0, 0, 0, 0]
  else if len = 3 then
    let m := (n % 2 ^ 32 - offset3) * 2 ^ 8 % 2 ^ 32
    [(31 &&& bePart m 3) ||| 32, bePart m 2, bePart m 1, 0, 0, 0, 0, 0, 0]
  else if len = 4 then
    let m := (n % 2 ^ 32 - offset4) % 2 ^ 32
    [(15 &&& bePart m 3) ||| 16, bePart m 2, bePart m 1, bePart m 0, 0, 0, 0, 0, 0]
  else if len = 5 then
    let m := (n - offset5) * 2 ^ 24 % 2 ^ 64
    [(7 &&& bePart m 7) ||| 8, bePart m 6, bePart m 5, bePart m 4, bePart m 3, 0, 0, 0, 0]
  else if len = 6 then
    let m := (n - offset6) * 2 ^ 16 % 2 ^ 64
    [(3 &&& bePart m 7) ||| 4, bePart m 6, bePart m 5, bePart m 4, bePart m 3, bePart m 2, 0, 0, 0]
  else if len = 7 then
    let m := (n - offset7) * 2 ^ 8 % 2 ^ 64
    [(1 &&& bePart m 7) ||| 2, bePart m 6, bePart m 5, bePart m 4, bePart m 3, bePart m 2,
      bePart m 1, 0, 0]
  else if len = 8 then
    let m := (n - offset8) % 2 ^ 64
    [1, bePart m 6, bePart m 5, bePart m 4, bePart m 3, bePart m 2, bePart m 1, bePart m 0, 0]
  else
    let m := (n - offset9) % 2 ^ 64
    [0, bePart m 7, bePart m 6, bePart m 5, bePart m 4, bePart m 3, bePart m 2, bePart m 1,
      bePart m 0]

/-- Embedding of `FastVlq::len`: the unary prefix of the first buffer byte. -/
def fastLen (v : List Nat) : Nat :=
  decodeLen (v.getD 0 0)

/-- Embedding of `decode` in `src/fast.rs`: pick the tier from the first
byte's unary prefix, reassemble the little-endian payload (`u64::from_le_bytes`
with the `unprefix!`-masked first byte in the highest populated position) and
add the tier offset with the wrapping `u64` addition of the source. -/
def fastDecode (v : List Nat) : Nat :=
  let b := fun i => v.getD i 0
  let len := fastLen v
  if len = 1 then b 0 &&& 127
  else if len = 2 then (b 1 + (b 0 &&& 63) * 2 ^ 8 + offset2) % 2 ^ 64
  else if len = 3 then (b 2 + b 1 * 2 ^ 8 + (b 0 &&& 31) * 2 ^ 16 + offset3) % 2 ^ 64
  else if len = 4 then
    (b 3 + b 2 * 2 ^ 8 + b 1 * 2 ^ 16 + (b 0 &&& 15) * 2 ^ 24 + offset4) % 2 ^ 64
  else if len = 5 then
    (b 4 + b 3 * 2 ^ 8 + b 2 * 2 ^ 16 + b 1 * 2 ^ 24 + (b 0 &&& 7) * 2 ^ 32 + offset5) % 2 ^ 64
  else if len = 6 then
    (b 5 + b 4 * 2 ^ 8 + b 3 * 2 ^ 16 + b 2 * 2 ^ 24 + b 1 * 2 ^ 32 + (b 0 &&& 3) * 2 ^ 40
      + offset6) % 2 ^ 64
  else if len = 7 then
    (b 6 + b 5 * 2 ^ 8 + b 4 * 2 ^ 16 + b 3 * 2 ^ 24 + b 2 * 2 ^ 32 + b 1 * 2 ^ 40
      + (b 0 &&& 1) * 2 ^ 48 + offset7) % 2 ^ 64
  else if len = 8 then
    (b 7 + b 6 * 2 ^ 8 + b 5 * 2 ^ 16 + b 4 * 2 ^ 24 + b 3 * 2 ^ 32 + b 2 * 2 ^ 40
      + b 1 * 2 ^ 48 + 0 * 2 ^ 56 + offset8) % 2 ^ 64
  else
    (b 8 + b 7 * 2 ^ 8 + b 6 * 2 ^ 16 + b 5 * 2 ^ 24 + b 4 * 2 ^ 32 + b 3 * 2 ^ 40
      + b 2 * 2 ^ 48 + b 1 * 2 ^ 56 + offset9) % 2 ^ 64

/-!
## Arbitrary-precision extension (`src/bigint.rs`)

The `impl Vlq for BigUint` uses num-bigint's base-radix digit conversions with
radix `0b0111_1111 = 127`.  `radixDigits` models `to_radix_digits_le` (the
little-endian base-127 digits of a positive value), and `toRadixLe` models
`BigUint::to_radix_le`, which returns `[0]` for zero.  `Nat.ofDigits 127`
plays the role of `BigUint::from_radix_le`, which additionally returns `None`
when some digit is not below the radix (the `.unwrap()` then panics).
-/

/-- Little-endian base-127 digits of a value; empty for zero. -/
def radixDigits (v : Nat) : List Nat :=
  if v = 0 then [] else v % 127 :: radixDigits (v / 127)
termination_by v
decreasing_by
  exact Nat.div_lt_self (by omega) (by omega)

/-- Model of `BigUint::to_radix_le(127)`: digit list, `[0]` for zero. -/
def toRadixLe (v : Nat) : List Nat :=
  if v = 0 then [0] else radixDigits v

/-- Embedding of `Vlq::to_writer for BigUint` in `src/bigint.rs`: take the
base-127 digit stream, OR `0b1000_0000` into every byte, then AND the last
byte with `0b0111_1111`. -/
def bigToWriter (v : Nat) : List Nat :=
  let stream := (toRadixLe v).map (· ||| 128)
  stream.dropLast ++ [stream.getLastD 0 &&& 127]

/-- Loop of `Vlq::from_reader for BigUint` in `src/bigint.rs`: push
`b & 0b0111_1111` for each byte read and stop once `b & 0b1000_0000 == 0`,
returning the pushed digits and the bytes left unread. -/
def collectDigits : List Nat → Except VlqError (List Nat × List Nat)
  | [] => .error .eof
  | b :: rest =>
    if b &&& 128 = 0 then
      .ok ([b &&& 127], rest)
    else
      match collectDigits rest with
      | .ok (ds, r) => .ok ((b &&& 127) :: ds, r)
      | .error e => .error e

/-- Embedding of `Vlq::from_reader for BigUint` in `src/bigint.rs`: collect
the 7-bit digits, then rebuild the value with `from_radix_le(.., 127)`, whose
`None` case (a digit not below the radix) is the `.unwrap()` panic. -/
def bigFromReader (bytes : List Nat) : Except VlqError (Nat × List Nat) :=
  match collectDigits bytes with
  | .error e => .error e
  | .ok (ds, r) =>
    if ds.all (· < 127) then .ok (Nat.ofDigits 127 ds, r) else .error .badDigit

lemma or_128r_and_127 : ∀ b < 128, (b ||| 128) &&& 127 = b := by decide

lemma or_128r_and_128 : ∀ b < 128, (b ||| 128) &&& 128 = 128 := by decide

lemma radixDigits_lt : ∀ v, ∀ d ∈ radixDigits v, d < 127 := by
  intro v
  induction v using Nat.strong_induction_on with
  | _ v ih =>
    intro d hd
    rw [radixDigits] at hd
    by_cases hv : v = 0
    · simp [hv] at hd
    · rw [if_neg hv] at hd
      rcases List.mem_cons.mp hd with h | h
      · omega
      · exact ih (v / 127) (Nat.div_lt_self (by omega) (by omega)) d h

lemma ofDigits_radixDigits : ∀ v, Nat.ofDigits 127 (radixDigits v) = v := by
  intro v
  induction v using Nat.strong_induction_on with
  | _ v ih =>
    rw [radixDigits]
    by_cases hv : v = 0
    · simp [hv, Nat.ofDigits]
    · rw [if_neg hv]
      rw [Nat.ofDigits_cons, ih (v / 127) (Nat.div_lt_self (by omega) (by omega))]
      omega

lemma toRadixLe_lt (v : Nat) : ∀ d ∈ toRadixLe v, d < 127 := by
  intro d hd
  rw [toRadixLe] at hd
  by_cases hv : v = 0
  · simp [hv] at hd
    omega
  · rw [if_neg hv] at hd
    exact radixDigits_lt v d hd

lemma ofDigits_toRadixLe (v : Nat) : Nat.ofDigits 127 (toRadixLe v) = v := by
  rw [toRadixLe]
  by_cases hv : v = 0
  · simp [hv, Nat.ofDigits]
  · rw [if_neg hv, ofDigits_radixDigits]

lemma toRadixLe_ne_nil (v : Nat) : toRadixLe v ≠ [] := by
  rw [toRadixLe]
  by_cases hv : v = 0
  · simp [hv]
  · rw [if_neg hv, radixDigits, if_neg hv]
    simp

lemma getLastD_irrel : ∀ (l : List Nat), l ≠ [] → ∀ a b, l.getLastD a = l.getLastD b := by
  intro l hl a b
  cases l with
  | nil => exact absurd rfl hl
  | cons x xs => rw [List.getLastD_cons, List.getLastD_cons]

/-- The continuation-marking of the writer is undone exactly by the
collection loop of the reader, for any digit list below 128. -/
lemma collectDigits_marked (s : List Nat) :
    ∀ ds, ds ≠ [] → (∀ d ∈ ds, d < 128) →
    collectDigits
      (((ds.map (· ||| 128)).dropLast ++ [(ds.map (· ||| 128)).getLastD 0 &&& 127]) ++ s)
      = .ok (ds, s) := by
  intro ds
  induction ds with
  | nil => intro h; exact absurd rfl h
  | cons d tail ih =>
    intro _ hlt
    have hd : d < 128 := hlt d (List.mem_cons_self d tail)
    by_cases htail : tail = []
    · subst htail
      simp only [List.map_cons, List.map_nil, List.dropLast_single, List.getLastD_cons,
        List.getLastD_nil, List.nil_append, List.cons_append, List.nil_append]
      rw [collectDigits]
      rw [or_128r_and_127 d hd]
      rw [if_pos (and_128_of_lt d hd), and_127_of_lt hd]
    · have hmap : tail.map (· ||| 128) ≠ [] := by
        simpa using htail
      simp only [List.map_cons]
      rw [List.dropLast_cons_of_ne_nil hmap, List.getLastD_cons,
        getLastD_irrel _ hmap (d ||| 128) 0]
      simp only [List.cons_append]
      rw [collectDigits]
      have hne : (d ||| 128) &&& 128 ≠ 0 := by
        rw [or_128r_and_128 d hd]
        omega
      rw [if_neg (by simpa using hne)]
      rw [ih htail (fun x hx => hlt x (List.mem_cons_of_mem d hx))]
      rw [or_128r_and_127 d hd]

/-- Round trip of the BigUint codec, with an arbitrary unread suffix. -/
lemma bigFromReader_toWriter_append (v : Nat) (s : List Nat) :
    bigFromReader (bigToWriter v ++ s) = .ok (v, s) := by
  have hne := toRadixLe_ne_nil v
  have hlt := toRadixLe_lt v
  have h128 : ∀ d ∈ toRadixLe v, d < 128 := fun d hd => by
    have := hlt d hd
    omega
  simp only [bigToWriter, bigFromReader]
  rw [collectDigits_marked s (toRadixLe v) hne h128]
  dsimp only
  rw [if_pos (List.all_eq_true.mpr fun d hd => by simpa using hlt d hd)]
  rw [ofDigits_toRadixLe]

lemma offset2_eq : offset2 = 128 := by norm_num [offset2]

lemma offset3_eq : offset3 = 16512 := by norm_num [offset3, offset2]

lemma offset4_eq : offset4 = 2113664 := by norm_num [offset4, offset3, offset2]

lemma offset5_eq : offset5 = 270549120 := by
  norm_num [offset5, offset4, offset3, offset2]

lemma offset6_eq : offset6 = 34630287488 := by
  norm_num [offset6, offset5, offset4, offset3, offset2]

lemma offset7_eq : offset7 = 4432676798592 := by
  norm_num [offset7, offset6, offset5, offset4, offset3, offset2]

lemma offset8_eq : offset8 = 567382630219904 := by
  norm_num [offset8, offset7, offset6, offset5, offset4, offset3, offset2]

lemma offset9_eq : offset9 = 72624976668147840 := by
  norm_num [offset9, offset8, offset7, offset6, offset5, offset4, offset3, offset2]

lemma fmask1 : ∀ a < 128, (a ||| 128) &&& 127 = a ∧ decodeLen (a ||| 128) = 1 := by decide

lemma fmask2 : ∀ a < 64, ((63 &&& a) ||| 64) &&& 63 = a ∧ decodeLen ((63 &&& a) ||| 64) = 2 := by
  decide

lemma fmask3 : ∀ a < 32, ((31 &&& a) ||| 32) &&& 31 = a ∧ decodeLen ((31 &&& a) ||| 32) = 3 := by
  decide

lemma fmask4 : ∀ a < 16, ((15 &&& a) ||| 16) &&& 15 = a ∧ decodeLen ((15 &&& a) ||| 16) = 4 := by
  decide

lemma fmask5 : ∀ a < 8, ((7 &&& a) ||| 8) &&& 7 = a ∧ decodeLen ((7 &&& a) ||| 8) = 5 := by
  decide

lemma fmask6 : ∀ a < 4, ((3 &&& a) ||| 4) &&& 3 = a ∧ decodeLen ((3 &&& a) ||| 4) = 6 := by
  decide

lemma fmask7 : ∀ a < 2, ((1 &&& a) ||| 2) &&& 1 = a ∧ decodeLen ((1 &&& a) ||| 2) = 7 := by
  decide

lemma fastEncode_eq1 (n : Nat) (h : encodeLen n = 1) :
    fastEncode n = [(n % 256) ||| 128, 0, 0, 0, 0, 0, 0, 0, 0] := by
  simp only [fastEncode, h]
  rw [if_pos (by decide)]

lemma fastDecode_eq1 (b0 b1 b2 b3 b4 b5 b6 b7 b8 : Nat) (h : decodeLen b0 = 1) :
    fastDecode [b0, b1, b2, b3, b4, b5, b6, b7, b8] = b0 &&& 127 := by
  have hfl : fastLen [b0, b1, b2, b3, b4, b5, b6, b7, b8] = 1 := by
    rw [fastLen, List.getD_cons_zero, h]
  simp only [fastDecode, hfl]
  rw [if_pos (by decide)]
  simp only [List.getD_cons_zero, List.getD_cons_succ]

lemma fastEncode_eq2 (n : Nat) (h : encodeLen n = 2) :
    fastEncode n = [(63 &&& bePart ((n % 2 ^ 16 - offset2) % 2 ^ 16) 1) ||| 64, bePart ((n % 2 ^ 16 - offset2) % 2 ^ 16) 0, 0, 0, 0, 0, 0, 0, 0] := by
  simp only [fastEncode, h]
  rw [if_neg (by decide), if_pos (by decide)]

lemma fastDecode_eq2 (b0 b1 b2 b3 b4 b5 b6 b7 b8 : Nat) (h : decodeLen b0 = 2) :
    fastDecode [b0, b1, b2, b3, b4, b5, b6, b7, b8] = (b1 + (b0 &&& 63) * 2 ^ 8 + offset2) % 2 ^ 64 := by
  have hfl : fastLen [b0, b1, b2, b3, b4, b5, b6, b7, b8] = 2 := by
    rw [fastLen, List.getD_cons_zero, h]
  simp only [fastDecode, hfl]
  rw [if_neg (by decide), if_pos (by decide)]
  simp only [List.getD_cons_zero, List.getD_cons_succ]

lemma fastEncode_eq3 (n : Nat) (h : encodeLen n = 3) :
    fastEncode n = [(31 &&& bePart ((n % 2 ^ 32 - offset3) * 2 ^ 8 % 2 ^ 32) 3) ||| 32, bePart ((n % 2 ^ 32 - offset3) * 2 ^ 8 % 2 ^ 32) 2, bePart ((n % 2 ^ 32 - offset3) * 2 ^ 8 % 2 ^ 32) 1, 0, 0, 0, 0, 0, 0] := by
  simp only [fastEncode, h]
  rw [if_neg (by decide), if_neg (by decide), if_pos (by decide)]

lemma fastDecode_eq3 (b0 b1 b2 b3 b4 b5 b6 b7 b8 : Nat) (h : decodeLen b0 = 3) :
    fastDecode [b0, b1, b2, b3, b4, b5, b6, b7, b8] = (b2 + b1 * 2 ^ 8 + (b0 &&& 31) * 2 ^ 16 + offset3) % 2 ^ 64 := by
  have hfl : fastLen [b0, b1, b2, b3, b4, b5, b6, b7, b8] = 3 := by
    rw [fastLen, List.getD_cons_zero, h]
  simp only [fastDecode, hfl]
  rw [if_neg (by decide), if_neg (by decide), if_pos (by decide)]
  simp only [List.getD_cons_zero, List.getD_cons_succ]

lemma fastEncode_eq4 (n : Nat) (h : encodeLen n = 4) :
    fastEncode n = [(15 &&& bePart ((n % 2 ^ 32 - offset4) % 2 ^ 32) 3) ||| 16, bePart ((n % 2 ^ 32 - offset4) % 2 ^ 32) 2, bePart ((n % 2 ^ 32 - offset4) % 2 ^ 32) 1, bePart ((n % 2 ^ 32 - offset4) % 2 ^ 32) 0, 0, 0, 0, 0, 0] := by
  simp only [fastEncode, h]
  rw [if_neg (by decide), if_neg (by decide), if_neg (by decide), if_pos (by decide)]

lemma fastDecode_eq4 (b0 b1 b2 b3 b4 b5 b6 b7 b8 : Nat) (h : decodeLen b0 = 4) :
    fastDecode [b0, b1, b2, b3, b4, b5, b6, b7, b8] = (b3 + b2 * 2 ^ 8 + b1 * 2 ^ 16 + (b0 &&& 15) * 2 ^ 24 + offset4) % 2 ^ 64 := by
  have hfl : fastLen [b0, b1, b2, b3, b4, b5, b6, b7, b8] = 4 := by
    rw [fastLen, List.getD_cons_zero, h]
  simp only [fastDecode, hfl]
  rw [if_neg (by decide), if_neg (by decide), if_neg (by decide), if_pos (by decide)]
  simp only [List.getD_cons_zero, List.getD_cons_succ]

lemma fastEncode_eq5 (n : Nat) (h : encodeLen n = 5) :
    fastEncode n = [(7 &&& bePart ((n - offset5) * 2 ^ 24 % 2 ^ 64) 7) ||| 8, bePart ((n - offset5) * 2 ^ 24 % 2 ^ 64) 6, bePart ((n - offset5) * 2 ^ 24 % 2 ^ 64) 5, bePart ((n - offset5) * 2 ^ 24 % 2 ^ 64) 4, bePart ((n - offset5) * 2 ^ 24 % 2 ^ 64) 3, 0, 0, 0, 0] := by
  simp only [fastEncode, h]
  rw [if_neg (by decide), if_neg (by decide), if_neg (by decide), if_neg (by decide), if_pos (by decide)]

lemma fastDecode_eq5 (b0 b1 b2 b3 b4 b5 b6 b7 b8 : Nat) (h : decodeLen b0 = 5) :
    fastDecode [b0, b1, b2, b3, b4, b5, b6, b7, b8] = (b4 + b3 * 2 ^ 8 + b2 * 2 ^ 16 + b1 * 2 ^ 24 + (b0 &&& 7) * 2 ^ 32 + offset5) % 2 ^ 64 := by
  have hfl : fastLen [b0, b1, b2, b3, b4, b5, b6, b7, b8] = 5 := by
    rw [fastLen, List.getD_cons_zero, h]
  simp only [fastDecode, hfl]
  rw [if_neg (by decide), if_neg (by decide), if_neg (by decide), if_neg (by decide), if_pos (by decide)]
  simp only [List.getD_cons_zero, List.getD_cons_succ]

lemma fastEncode_eq6 (n : Nat) (h : encodeLen n = 6) :
    fastEncode n = [(3 &&& bePart ((n - offset6) * 2 ^ 16 % 2 ^ 64) 7) ||| 4, bePart ((n - offset6) * 2 ^ 16 % 2 ^ 64) 6, bePart ((n - offset6) * 2 ^ 16 % 2 ^ 64) 5, bePart ((n - offset6) * 2 ^ 16 % 2 ^ 64) 4, bePart ((n - offset6) * 2 ^ 16 % 2 ^ 64) 3, bePart ((n - offset6) * 2 ^ 16 % 2 ^ 64) 2, 0, 0,
      0] := by
  simp only [fastEncode, h]
  rw [if_neg (by decide), if_neg (by decide), if_neg (by decide), if_neg (by decide), if_neg (by decide), if_pos (by decide)]

lemma fastDecode_eq6 (b0 b1 b2 b3 b4 b5 b6 b7 b8 : Nat) (h : decodeLen b0 = 6) :
    fastDecode [b0, b1, b2, b3, b4, b5, b6, b7, b8] = (b5 + b4 * 2 ^ 8 + b3 * 2 ^ 16 + b2 * 2 ^ 24 + b1 * 2 ^ 32 + (b0 &&& 3) * 2 ^ 40 + offset6)
      % 2 ^ 64 := by
  have hfl : fastLen [b0, b1, b2, b3, b4, b5, b6, b7, b8] = 6 := by
    rw [fastLen, List.getD_cons_zero, h]
  simp only [fastDecode, hfl]
  rw [if_neg (by decide), if_neg (by decide), if_neg (by decide), if_neg (by decide), if_neg (by decide), if_pos (by decide)]
  simp only [List.getD_cons_zero, List.getD_cons_succ]

lemma fastEncode_eq7 (n : Nat) (h : encodeLen n = 7) :
    fastEncode n = [(1 &&& bePart ((n - offset7) * 2 ^ 8 % 2 ^ 64) 7) ||| 2, bePart ((n - offset7) * 2 ^ 8 % 2 ^ 64) 6, bePart ((n - offset7) * 2 ^ 8 % 2 ^ 64) 5, bePart ((n - offset7) * 2 ^ 8 % 2 ^ 64) 4, bePart ((n - offset7) * 2 ^ 8 % 2 ^ 64) 3, bePart ((n - offset7) * 2 ^ 8 % 2 ^ 64) 2,
      bePart ((n - offset7) * 2 ^ 8 % 2 ^ 64) 1, 0, 0] := by
  simp only [fastEncode, h]
  rw [if_neg (by decide), if_neg (by decide), if_neg (by decide), if_neg (by decide), if_neg (by decide), if_neg (by decide), if_pos (by decide)]

lemma fastDecode_eq7 (b0 b1 b2 b3 b4 b5 b6 b7 b8 : Nat) (h : decodeLen b0 = 7) :
    fastDecode [b0, b1, b2, b3, b4, b5, b6, b7, b8] = (b6 + b5 * 2 ^ 8 + b4 * 2 ^ 16 + b3 * 2 ^ 24 + b2 * 2 ^ 32 + b1 * 2 ^ 40
      + (b0 &&& 1) * 2 ^ 48 + offset7) % 2 ^ 64 := by
  have hfl : fastLen [b0, b1, b2, b3, b4, b5, b6, b7, b8] = 7 := by
    rw [fastLen, List.getD_cons_zero, h]
  simp only [fastDecode, hfl]
  rw [if_neg (by decide), if_neg (by decide), if_neg (by decide), if_neg (by decide), if_neg (by decide), if_neg (by decide), if_pos (by decide)]
  simp only [List.getD_cons_zero, List.getD_cons_succ]

lemma fastEncode_eq8 (n : Nat) (h : encodeLen n = 8) :
    fastEncode n = [1, bePart ((n - offset8) % 2 ^ 64) 6, bePart ((n - offset8) % 2 ^ 64) 5, bePart ((n - offset8) % 2 ^ 64) 4, bePart ((n - offset8) % 2 ^ 64) 3, bePart ((n - offset8) % 2 ^ 64) 2, bePart ((n - offset8) % 2 ^ 64) 1, bePart ((n - offset8) % 2 ^ 64) 0, 0] := by
  simp only [fastEncode, h]
  rw [if_neg (by decide), if_neg (by decide), if_neg (by decide), if_neg (by decide), if_neg (by decide), if_neg (by decide), if_neg (by decide), if_pos (by decide)]

lemma fastDecode_eq8 (b0 b1 b2 b3 b4 b5 b6 b7 b8 : Nat) (h : decodeLen b0 = 8) :
    fastDecode [b0, b1, b2, b3, b4, b5, b6, b7, b8] = (b7 + b6 * 2 ^ 8 + b5 * 2 ^ 16 + b4 * 2 ^ 24 + b3 * 2 ^ 32 + b2 * 2 ^ 40 + b1 * 2 ^ 48
      + 0 * 2 ^ 56 + offset8) % 2 ^ 64 := by
  have hfl : fastLen [b0, b1, b2, b3, b4, b5, b6, b7, b8] = 8 := by
    rw [fastLen, List.getD_cons_zero, h]
  simp only [fastDecode, hfl]
  rw [if_neg (by decide), if_neg (by decide), if_neg (by decide), if_neg (by decide), if_neg (by decide), if_neg (by decide), if_neg (by decide), if_pos (by decide)]
  simp only [List.getD_cons_zero, List.getD_cons_succ]

lemma fastEncode_eq9 (n : Nat) (h : encodeLen n = 9) :
    fastEncode n = [0, bePart ((n - offset9) % 2 ^ 64) 7, bePart ((n - offset9) % 2 ^ 64) 6, bePart ((n - offset9) % 2 ^ 64) 5, bePart ((n - offset9) % 2 ^ 64) 4, bePart ((n - offset9) % 2 ^ 64) 3, bePart ((n - offset9) % 2 ^ 64) 2, bePart ((n - offset9) % 2 ^ 64) 1,
      bePart ((n - offset9) % 2 ^ 64) 0] := by
  simp only [fastEncode, h]
  rw [if_neg (by decide), if_neg (by decide), if_neg (by decide), if_neg (by decide), if_neg (by decide), if_neg (by decide), if_neg (by decide), if_neg (by decide)]

lemma fastDecode_eq9 (b0 b1 b2 b3 b4 b5 b6 b7 b8 : Nat) (h : decodeLen b0 = 9) :
    fastDecode [b0, b1, b2, b3, b4, b5, b6, b7, b8] = (b8 + b7 * 2 ^ 8 + b6 * 2 ^ 16 + b5 * 2 ^ 24 + b4 * 2 ^ 32 + b3 * 2 ^ 40 + b2 * 2 ^ 48
      + b1 * 2 ^ 56 + offset9) % 2 ^ 64 := by
  have hfl : fastLen [b0, b1, b2, b3, b4, b5, b6, b7, b8] = 9 := by
    rw [fastLen, List.getD_cons_zero, h]
  simp only [fastDecode, hfl]
  rw [if_neg (by decide), if_neg (by decide), if_neg (by decide), if_neg (by decide), if_neg (by decide), if_neg (by decide), if_neg (by decide), if_neg (by decide)]
  simp only [List.getD_cons_zero, List.getD_cons_succ]
lemma fastRoundTrip3 (n : Nat) (h1 : offset3 ≤ n) (h2 : n < offset4) :
    fastDecode (fastEncode n) = n := by
  rw [offset3_eq] at h1
  rw [offset4_eq] at h2
  have hlen : encodeLen n = 3 := by
    rw [encodeLen, if_neg (by rw [offset2_eq]; omega), if_neg (by rw [offset3_eq]; omega), if_pos (by rw [offset4_eq]; omega)]
  have hE := fastEncode_eq3 n hlen
  have hmm : (n % 2 ^ 32 - offset3) * 2 ^ 8 % 2 ^ 32 = (n - 16512) * 2 ^ 8 := by
    rw [offset3_eq, Nat.mod_eq_of_lt (show n < 2 ^ 32 by omega),
      Nat.mod_eq_of_lt (by omega)]
  rw [hmm] at hE
  have hb : bePart ((n - 16512) * 2 ^ 8) 3 < 32 := by
    simp only [bePart]
    omega
  have hm := fmask3 (bePart ((n - 16512) * 2 ^ 8) 3) hb
  rw [hE, fastDecode_eq3 _ _ _ _ _ _ _ _ _ hm.2]
  rw [hm.1]
  rw [offset3_eq]
  simp only [bePart]
  omega

lemma fastRoundTrip4 (n : Nat) (h1 : offset4 ≤ n) (h2 : n < offset5) :
    fastDecode (fastEncode n) = n := by
  rw [offset4_eq] at h1
  rw [offset5_eq] at h2
  have hlen : encodeLen n = 4 := by
    rw [encodeLen, if_neg (by rw [offset2_eq]; omega), if_neg (by rw [offset3_eq]; omega), if_neg (by rw [offset4_eq]; omega), if_pos (by rw [offset5_eq]; omega)]
  have hE := fastEncode_eq4 n hlen
  have hmm : (n % 2 ^ 32 - offset4) % 2 ^ 32 = n - 2113664 := by
    rw [offset4_eq, Nat.mod_eq_of_lt (show n < 2 ^ 32 by omega)]
    omega
  rw [hmm] at hE
  have hb : bePart (n - 2113664) 3 < 16 := by
    simp only [bePart]
    omega
  have hm := fmask4 (bePart (n - 2113664) 3) hb
  rw [hE, fastDecode_eq4 _ _ _ _ _ _ _ _ _ hm.2]
  rw [hm.1]
  rw [offset4_eq]
  simp only [bePart]
  omega

lemma fastRoundTrip5 (n : Nat) (h1 : offset5 ≤ n) (h2 : n < offset6) :
    fastDecode (fastEncode n) = n := by
  rw [offset5_eq] at h1
  rw [offset6_eq] at h2
  have hlen : encodeLen n = 5 := by
    rw [encodeLen, if_neg (by rw [offset2_eq]; omega), if_neg (by rw [offset3_eq]; omega), if_neg (by rw [offset4_eq]; omega), if_neg (by rw [offset5_eq]; omega), if_pos (by rw [offset6_eq]; omega)]
  have hE := fastEncode_eq5 n hlen
  have hmm : (n - offset5) * 2 ^ 24 % 2 ^ 64 = (n - 270549120) * 2 ^ 24 := by
    rw [offset5_eq, Nat.mod_eq_of_lt (by omega)]
  rw [hmm] at hE
  have hb : bePart ((n - 270549120) * 2 ^ 24) 7 < 8 := by
    simp only [bePart]
    omega
  have hm := fmask5 (bePart ((n - 270549120) * 2 ^ 24) 7) hb
  rw [hE, fastDecode_eq5 _ _ _ _ _ _ _ _ _ hm.2]
  rw [hm.1]
  rw [offset5_eq]
  simp only [bePart]
  omega

lemma fastRoundTrip6 (n : Nat) (h1 : offset6 ≤ n) (h2 : n < offset7) :
    fastDecode (fastEncode n) = n := by
  rw [offset6_eq] at h1
  rw [offset7_eq] at h2
  have hlen : encodeLen n = 6 := by
    rw [encodeLen, if_neg (by rw [offset2_eq]; omega), if_neg (by rw [offset3_eq]; omega), if_neg (by rw [offset4_eq]; omega), if_neg (by rw [offset5_eq]; omega), if_neg (by rw [offset6_eq]; omega), if_pos (by rw [offset7_eq]; omega)]
  have hE := fastEncode_eq6 n hlen
  have hmm : (n - offset6) * 2 ^ 16 % 2 ^ 64 = (n - 34630287488) * 2 ^ 16 := by
    rw [offset6_eq, Nat.mod_eq_of_lt (by omega)]
  rw [hmm] at hE
  have hb : bePart ((n - 34630287488) * 2 ^ 16) 7 < 4 := by
    simp only [bePart]
    omega
  have hm := fmask6 (bePart ((n - 34630287488) * 2 ^ 16) 7) hb
  rw [hE, fastDecode_eq6 _ _ _ _ _ _ _ _ _ hm.2]
  rw [hm.1]
  rw [offset6_eq]
  simp only [bePart]
  omega

lemma fastRoundTrip7 (n : Nat) (h1 : offset7 ≤ n) (h2 : n < offset8) :
    fastDecode (fastEncode n) = n := by
  rw [offset7_eq] at h1
  rw [offset8_eq] at h2
  have hlen : encodeLen n = 7 := by
    rw [encodeLen, if_neg (by rw [offset2_eq]; omega), if_neg (by rw [offset3_eq]; omega), if_neg (by rw [offset4_eq]; omega), if_neg (by rw [offset5_eq]; omega), if_neg (by rw [offset6_eq]; omega), if_neg (by rw [offset7_eq]; omega), if_pos (by rw [offset8_eq]; omega)]
  have hE := fastEncode_eq7 n hlen
  have hmm : (n - offset7) * 2 ^ 8 % 2 ^ 64 = (n - 4432676798592) * 2 ^ 8 := by
    rw [offset7_eq, Nat.mod_eq_of_lt (by omega)]
  rw [hmm] at hE
  have hb : bePart ((n - 4432676798592) * 2 ^ 8) 7 < 2 := by
    simp only [bePart]
    omega
  have hm := fmask7 (bePart ((n - 4432676798592) * 2 ^ 8) 7) hb
  rw [hE, fastDecode_eq7 _ _ _ _ _ _ _ _ _ hm.2]
  rw [hm.1]
  rw [offset7_eq]
  simp only [bePart]
  omega

lemma fastRoundTrip8 (n : Nat) (h1 : offset8 ≤ n) (h2 : n < offset9) :
    fastDecode (fastEncode n) = n := by
  rw [offset8_eq] at h1
  rw [offset9_eq] at h2
  have hlen : encodeLen n = 8 := by
    rw [encodeLen, if_neg (by rw [offset2_eq]; omega), if_neg (by rw [offset3_eq]; omega), if_neg (by rw [offset4_eq]; omega), if_neg (by rw [offset5_eq]; omega), if_neg (by rw [offset6_eq]; omega), if_neg (by rw [offset7_eq]; omega), if_neg (by rw [offset8_eq]; omega), if_pos (by rw [offset9_eq]; omega)]
  have hE := fastEncode_eq8 n hlen
  have hmm : (n - offset8) % 2 ^ 64 = n - 567382630219904 := by
    rw [offset8_eq]
    omega
  rw [hmm] at hE
  rw [hE, fastDecode_eq8 _ _ _ _ _ _ _ _ _ (by decide)]
  rw [offset8_eq]
  simp only [bePart]
  omega

lemma fastRoundTrip9 (n : Nat) (h1 : offset9 ≤ n) (h2 : n < 2 ^ 64) :
    fastDecode (fastEncode n) = n := by
  rw [offset9_eq] at h1
  have hlen : encodeLen n = 9 := by
    rw [encodeLen, if_neg (by rw [offset2_eq]; omega), if_neg (by rw [offset3_eq]; omega), if_neg (by rw [offset4_eq]; omega), if_neg (by rw [offset5_eq]; omega), if_neg (by rw [offset6_eq]; omega), if_neg (by rw [offset7_eq]; omega), if_neg (by rw [offset8_eq]; omega), if_neg (by rw [offset9_eq]; omega)]
  have hE := fastEncode_eq9 n hlen
  have hmm : (n - offset9) % 2 ^ 64 = n - 72624976668147840 := by
    rw [offset9_eq]
    omega
  rw [hmm] at hE
  rw [hE, fastDecode_eq9 _ _ _ _ _ _ _ _ _ (by decide)]
  rw [offset9_eq]
  simp only [bePart]
  omega

lemma fastRoundTrip1 (n : Nat) (h : n < offset2) : fastDecode (fastEncode n) = n := by
  rw [offset2_eq] at h
  have hlen : encodeLen n = 1 := by
    rw [encodeLen, if_pos (by rw [offset2_eq]; omega)]
  have hmod : n % 256 = n := Nat.mod_eq_of_lt (by omega)
  have hm := fmask1 n h
  have hE := fastEncode_eq1 n hlen
  rw [hmod] at hE
  rw [hE, fastDecode_eq1 _ _ _ _ _ _ _ _ _ hm.2]
  exact hm.1

lemma fastRoundTrip2 (n : Nat) (h1 : offset2 ≤ n) (h2 : n < offset3) :
    fastDecode (fastEncode n) = n := by
  rw [offset2_eq] at h1
  rw [offset3_eq] at h2
  have hlen : encodeLen n = 2 := by
    rw [encodeLen, if_neg (by rw [offset2_eq]; omega), if_pos (by rw [offset3_eq]; omega)]
  have hE := fastEncode_eq2 n hlen
  have hmm : (n % 2 ^ 16 - offset2) % 2 ^ 16 = n - 128 := by
    rw [offset2_eq, Nat.mod_eq_of_lt (show n < 2 ^ 16 by omega)]
    omega
  rw [hmm] at hE
  have hb : bePart (n - 128) 1 < 64 := by
    simp only [bePart]
    omega
  have hm := fmask2 (bePart (n - 128) 1) hb
  rw [hE, fastDecode_eq2 _ _ _ _ _ _ _ _ _ hm.2]
  rw [hm.1]
  rw [offset2_eq]
  simp only [bePart]
  omega

/-- Round trip of the fast codec over the whole 64-bit range. -/
lemma fastRoundTrip (n : Nat) (h : n < 2 ^ 64) : fastDecode (fastEncode n) = n := by
  by_cases c2 : n < offset2
  · exact fastRoundTrip1 n c2
  by_cases c3 : n < offset3
  · exact fastRoundTrip2 n (Nat.le_of_not_lt c2) c3
  by_cases c4 : n < offset4
  · exact fastRoundTrip3 n (Nat.le_of_not_lt c3) c4
  by_cases c5 : n < offset5
  · exact fastRoundTrip4 n (Nat.le_of_not_lt c4) c5
  by_cases c6 : n < offset6
  · exact fastRoundTrip5 n (Nat.le_of_not_lt c5) c6
  by_cases c7 : n < offset7
  · exact fastRoundTrip6 n (Nat.le_of_not_lt c6) c7
  by_cases c8 : n < offset8
  · exact fastRoundTrip7 n (Nat.le_of_not_lt c7) c8
  by_cases c9 : n < offset9
  · exact fastRoundTrip8 n (Nat.le_of_not_lt c8) c9
  exact fastRoundTrip9 n (Nat.le_of_not_lt c9) h

/-- Encoded length is at most `k + 1` for values below `128 ^ (k + 1)`. -/
lemma vlqEncode_length_le : ∀ k n, n < 128 ^ (k + 1) → (vlqEncode n).length ≤ k + 1 := by
  intro k
  induction k with
  | zero =>
    intro n h
    rw [vlqEncode, if_pos (by simpa using h)]
    simp
  | succ k ih =>
    intro n h
    by_cases hn : n < 128
    · rw [vlqEncode, if_pos hn]
      simp
    · rw [vlqEncode, if_neg hn]
      have hsr : n >>> 7 = n / 128 := by
        rw [Nat.shiftRight_eq_div_pow]
      rw [hsr]
      simp only [List.length_cons]
      have hdiv : n / 128 < 128 ^ (k + 1) := by
        rw [Nat.div_lt_iff_lt_mul (by omega)]
        calc n < 128 ^ (k + 2) := h
        _ = 128 ^ (k + 1) * 128 := by ring
      exact Nat.succ_le_succ (ih (n / 128) hdiv)

/-- Encoded length is exactly `k + 1` for values in `[128 ^ k, 128 ^ (k + 1))`. -/
lemma vlqEncode_length_eq : ∀ k n, 128 ^ k ≤ n → n < 128 ^ (k + 1) →
    (vlqEncode n).length = k + 1 := by
  intro k
  induction k with
  | zero =>
    intro n _ h2
    rw [vlqEncode, if_pos (by simpa using h2)]
    simp
  | succ k ih =>
    intro n h1 h2
    have hn : ¬n < 128 := by
      have : (128 : Nat) ≤ 128 ^ (k + 1) := by
        calc (128 : Nat) = 128 ^ 1 := by ring
        _ ≤ 128 ^ (k + 1) := Nat.pow_le_pow_right (by omega) (by omega)
      omega
    rw [vlqEncode, if_neg hn]
    have hsr : n >>> 7 = n / 128 := by
      rw [Nat.shiftRight_eq_div_pow]
    rw [hsr]
    simp only [List.length_cons]
    have hlo : 128 ^ k ≤ n / 128 := by
      rw [Nat.le_div_iff_mul_le (by omega)]
      calc 128 ^ k * 128 = 128 ^ (k + 1) := by ring
      _ ≤ n := h1
    have hhi : n / 128 < 128 ^ (k + 1) := by
      rw [Nat.div_lt_iff_lt_mul (by omega)]
      calc n < 128 ^ (k + 2) := h2
      _ = 128 ^ (k + 1) * 128 := by ring
    rw [ih (n / 128) hlo hhi]

lemma vlqEncode_ne_nil (n : Nat) : vlqEncode n ≠ [] := by
  rw [vlqEncode]
  by_cases hn : n < 128
  · rw [if_pos hn]
    simp
  · rw [if_neg hn]
    simp

/-- Every byte of an encoding except the last has the high bit clear. -/
lemma vlqEncode_dropLast_clear : ∀ n, ∀ b ∈ (vlqEncode n).dropLast, b &&& 128 = 0 := by
  intro n
  induction n using Nat.strong_induction_on with
  | _ n ih =>
    intro b hb
    by_cases hn : n < 128
    · rw [vlqEncode, if_pos hn] at hb
      simp at hb
    · rw [vlqEncode, if_neg hn] at hb
      rw [List.dropLast_cons_of_ne_nil (vlqEncode_ne_nil _)] at hb
      rcases List.mem_cons.mp hb with h | h
      · subst h
        rw [and_127_eq_mod]
        exact and_128_of_lt _ (Nat.mod_lt _ (by omega))
      · have hsr : n >>> 7 = n / 128 := by
          rw [Nat.shiftRight_eq_div_pow]
        rw [hsr] at h
        exact ih (n / 128) (Nat.div_lt_self (by omega) (by omega)) b h

/-- The final byte of an encoding has the high bit set. -/
lemma vlqEncode_getLast_set : ∀ n, (vlqEncode n).getLastD 0 &&& 128 = 128 := by
  intro n
  induction n using Nat.strong_induction_on with
  | _ n ih =>
    by_cases hn : n < 128
    · rw [vlqEncode, if_pos hn]
      rw [List.getLastD_cons, List.getLastD_nil]
      exact or_128_and_128 n hn
    · rw [vlqEncode, if_neg hn]
      rw [List.getLastD_cons, getLastD_irrel _ (vlqEncode_ne_nil _) _ 0]
      have hsr : n >>> 7 = n / 128 := by
        rw [Nat.shiftRight_eq_div_pow]
      rw [hsr]
      exact ih (n / 128) (Nat.div_lt_self (by omega) (by omega))

/-- Exactly one byte of an encoding, the last, has the high bit set. -/
lemma vlqEncode_countP_one : ∀ n, (vlqEncode n).countP (fun b => b &&& 128 != 0) = 1 := by
  intro n
  induction n using Nat.strong_induction_on with
  | _ n ih =>
    by_cases hn : n < 128
    · rw [vlqEncode, if_pos hn]
      rw [List.countP_cons, List.countP_nil]
      rw [or_128_and_128 n hn]
      simp
    · rw [vlqEncode, if_neg hn]
      rw [List.countP_cons]
      have hfst : (n &&& 127) &&& 128 = 0 := by
        rw [and_127_eq_mod]
        exact and_128_of_lt _ (Nat.mod_lt _ (by omega))
      have hsr : n >>> 7 = n / 128 := by
        rw [Nat.shiftRight_eq_div_pow]
      rw [hsr, ih (n / 128) (Nat.div_lt_self (by omega) (by omega)), hfst]
      simp

/-- The decode loop, on success, consumes bytes exactly up to and including
the first byte whose high bit is set. -/
lemma vlqFromReaderAux_stops (w b : Nat) (post : List Nat) (hb : b &&& 128 ≠ 0) :
    ∀ pre value shift v r, (∀ x ∈ pre, x &&& 128 = 0) →
    vlqFromReaderAux w (pre ++ b :: post) value shift = .ok (v, r) → r = post := by
  intro pre
  induction pre with
  | nil =>
    intro value shift v r _ h
    rw [List.nil_append] at h
    simp only [vlqFromReaderAux] at h
    by_cases c1 : (b &&& 127) * shift < 2 ^ w
    · rw [if_pos c1] at h
      by_cases c2 : value + (b &&& 127) * shift < 2 ^ w
      · rw [if_pos c2, if_pos hb] at h
        simp only [Except.ok.injEq, Prod.mk.injEq] at h
        exact h.2.symm
      · rw [if_neg c2] at h
        exact Except.noConfusion h
    · rw [if_neg c1] at h
      exact Except.noConfusion h
  | cons x pre ih =>
    intro value shift v r hpre h
    rw [List.cons_append] at h
    simp only [vlqFromReaderAux] at h
    have hx : x &&& 128 = 0 := hpre x (List.mem_cons_self _ _)
    by_cases c1 : (x &&& 127) * shift < 2 ^ w
    · rw [if_pos c1] at h
      by_cases c2 : value + (x &&& 127) * shift < 2 ^ w
      · rw [if_pos c2, if_neg (by simp [hx])] at h
        exact ih _ _ _ _ (fun y hy => hpre y (List.mem_cons_of_mem _ hy)) h
      · rw [if_neg c2] at h
        exact Except.noConfusion h
    · rw [if_neg c1] at h
      exact Except.noConfusion h

/-- A source with no terminal byte never yields a value from the primitive
decode loop: it fails, with the end-of-input or the overflow error. -/
lemma vlqFromReaderAux_no_terminal (w : Nat) :
    ∀ src value shift, (∀ b ∈ src, b &&& 128 = 0) →
    ∃ e, vlqFromReaderAux w src value shift = .error e := by
  intro src
  induction src with
  | nil =>
    intro value shift _
    exact ⟨.eof, rfl⟩
  | cons b rest ih =>
    intro value shift hall
    have hb := hall b (List.mem_cons_self _ _)
    simp only [vlqFromReaderAux]
    by_cases c1 : (b &&& 127) * shift < 2 ^ w
    · rw [if_pos c1]
      by_cases c2 : value + (b &&& 127) * shift < 2 ^ w
      · rw [if_pos c2, if_neg (by simp [hb])]
        exact ih _ _ (fun y hy => hall y (List.mem_cons_of_mem _ hy))
      · rw [if_neg c2]
        exact ⟨.overflow, rfl⟩
    · rw [if_neg c1]
      exact ⟨.overflow, rfl⟩

/-- The BigUint collection loop hits end-of-input when every byte has the
continuation bit set. -/
lemma collectDigits_no_terminal :
    ∀ src, (∀ b ∈ src, b &&& 128 ≠ 0) → collectDigits src = .error .eof := by
  intro src
  induction src with
  | nil =>
    intro
    rfl
  | cons b rest ih =>
    intro hall
    rw [collectDigits, if_neg (by simpa using hall b (List.mem_cons_self _ _))]
    rw [ih (fun y hy => hall y (List.mem_cons_of_mem _ hy))]

lemma bigFromReader_no_terminal (src : List Nat) (h : ∀ b ∈ src, b &&& 128 ≠ 0) :
    bigFromReader src = .error .eof := by
  rw [bigFromReader, collectDigits_no_terminal src h]

/-!
## Claim theorems
-/

/-- C1: round trip for both codecs — for every accumulator width `w` (covering
`u8 … u128`, `usize`, and the signed types via their unsigned bit pattern) and
every representable value, `from_reader` applied to the bytes of `to_writer`
returns the value; and the fast codec satisfies `decode (encode v) = v` for
every 64-bit value. -/
theorem roundtrip_standard_and_fast :
    (∀ w v, v < 2 ^ w → vlqFromReader w (vlqEncode v) = .ok (v, [])) ∧
    (∀ v, v < 2 ^ 64 → fastDecode (fastEncode v) = v) := by
  constructor
  · intro w v h
    simpa using vlqFromReader_encode_append w v [] h
  · exact fastRoundTrip

theorem roundtrip_standard_and_fast_witness :
    vlqFromReader 8 (vlqEncode 200) = .ok (200, []) ∧ fastDecode (fastEncode 300) = 300 :=
  ⟨roundtrip_standard_and_fast.1 8 200 (by decide),
    roundtrip_standard_and_fast.2 300 (by decide)⟩

/-- C2: the byte source `[0x01, 0x00, 0x01, 0x80]` encodes the radix-128
value `16385`, which does not fit in `u8`, yet `from_reader::<u8>` returns
`Ok(1)`: after two continuation steps the 8-bit `shift` has wrapped to `0`,
so the third 7-bit group is multiplied by zero and silently dropped instead
of triggering the overflow error the crate documentation promises. -/
theorem overflow_missed_after_shift_wraparound :
    radixValue [1, 0, 1, 128] = 16385 ∧ 2 ^ 8 < radixValue [1, 0, 1, 128] ∧
    vlqFromReader 8 [1, 0, 1, 128] = .ok (1, []) :=
  ⟨by decide, by decide, rfl⟩

/-- C3 (counterexample): the standard codec does not produce the 3-byte
sequence shown in the module documentation for 60000 — the documented bytes
carry the continuation bit on all but the last byte, the inverse of what
`to_writer` emits. -/
theorem encode_60000_ne_documented_bytes :
    vlqEncode 60000 ≠ [0b11100000, 0b11010100, 0b00000011] := by
  have he : vlqEncode 60000 = [0b01100000, 0b01010100, 0b10000011] := by
    simp [vlqEncode, and_127_eq_mod]
  rw [he]
  decide

/-- C3 (amended): the standard codec encodes 60000 to the three bytes
`0b01100000 0b01010100 0b10000011` — 7-bit groups least significant first,
high bit clear on every byte except the last, where it is set. -/
theorem encode_60000_bytes :
    vlqEncode 60000 = [0b01100000, 0b01010100, 0b10000011] := by
  simp [vlqEncode, and_127_eq_mod]

/-- C4 (counterexample): the arbitrary-precision extension does not use the
same continuation convention as the primitive codec — already at `v = 1` the
BigUint writer emits `[0x01]` while the `u64` writer emits `[0x81]`. -/
theorem bigint_encoding_differs_from_primitive : bigToWriter 1 ≠ vlqEncode 1 := by
  have h1 : bigToWriter 1 = [1] := by
    simp [bigToWriter, toRadixLe, radixDigits, and_127_eq_mod]
  have h2 : vlqEncode 1 = [129] := by
    simp [vlqEncode]
  rw [h1, h2]
  decide

/-- C4 (amended): the BigUint codec uses the inverse continuation polarity
(high bit set means more bytes follow; the final byte has it clear) and
base-127 digits, so its byte sequences differ from the primitive codec's and
neither codec decodes the other's output; each codec round-trips its own. -/
theorem bigint_inverse_polarity_self_consistent :
    (∀ v, bigFromReader (bigToWriter v) = .ok (v, [])) ∧
    bigToWriter 1 = [1] ∧ vlqEncode 1 = [129] ∧
    vlqFromReader 64 [1] = .error .eof ∧
    bigFromReader [129] = .error .eof := by
  refine ⟨fun v => by simpa using bigFromReader_toWriter_append v [], ?_, ?_, rfl, rfl⟩
  · simp [bigToWriter, toRadixLe, radixDigits, and_127_eq_mod]
  · simp [vlqEncode]

/-- C5: BigUint round trip including zero — `to_writer` always succeeds,
zero still emits exactly one byte, and `from_reader` recovers every value
from its written bytes. -/
theorem bigint_roundtrip_including_zero :
    (bigToWriter 0).length = 1 ∧ ∀ v, bigFromReader (bigToWriter v) = .ok (v, []) := by
  constructor
  · rfl
  · intro v
    simpa using bigFromReader_toWriter_append v []

/-- C6: fast codec tier boundaries — `encode 0x7F` is a 1-byte encoding,
`encode 0x80` 2 bytes, `encode u64::MAX` 9 bytes, and at every tier boundary
of the offset table the top value of tier `N` encodes in `N` bytes while the
next value takes `N + 1`, the length being recovered from the first byte's
unary prefix by `FastVlq::len` and agreeing with `encode_len`. -/
theorem fast_tier_boundaries :
    fastLen (fastEncode 0x7F) = 1 ∧ encodeLen 0x7F = 1 ∧
    fastLen (fastEncode 0x80) = 2 ∧ encodeLen 0x80 = 2 ∧
    fastLen (fastEncode 0xFFFFFFFFFFFFFFFF) = 9 ∧ encodeLen 0xFFFFFFFFFFFFFFFF = 9 ∧
    fastLen (fastEncode 16511) = 2 ∧ encodeLen 16511 = 2 ∧
    fastLen (fastEncode 16512) = 3 ∧ encodeLen 16512 = 3 ∧
    fastLen (fastEncode 2113663) = 3 ∧ encodeLen 2113663 = 3 ∧
    fastLen (fastEncode 2113664) = 4 ∧ encodeLen 2113664 = 4 ∧
    fastLen (fastEncode 270549119) = 4 ∧ encodeLen 270549119 = 4 ∧
    fastLen (fastEncode 270549120) = 5 ∧ encodeLen 270549120 = 5 ∧
    fastLen (fastEncode 34630287487) = 5 ∧ encodeLen 34630287487 = 5 ∧
    fastLen (fastEncode 34630287488) = 6 ∧ encodeLen 34630287488 = 6 ∧
    fastLen (fastEncode 4432676798591) = 6 ∧ encodeLen 4432676798591 = 6 ∧
    fastLen (fastEncode 4432676798592) = 7 ∧ encodeLen 4432676798592 = 7 ∧
    fastLen (fastEncode 567382630219903) = 7 ∧ encodeLen 567382630219903 = 7 ∧
    fastLen (fastEncode 567382630219904) = 8 ∧ encodeLen 567382630219904 = 8 ∧
    fastLen (fastEncode 72624976668147839) = 8 ∧ encodeLen 72624976668147839 = 8 ∧
    fastLen (fastEncode 72624976668147840) = 9 ∧ encodeLen 72624976668147840 = 9 := by
  decide

/-- C7: documented byte counts — encoding 0 takes one byte in both codecs,
`u64::MAX` takes 10 bytes, the `i64::MIN` bit pattern `2 ^ 63` takes 10
bytes, and for every width `w ≥ 1` every value with the top bit set (the
pattern of every negative signed value) occupies `(w - 1) / 7 + 1` bytes,
the maximum encoded length for that width. -/
theorem encoded_byte_counts :
    (vlqEncode 0).length = 1 ∧ fastLen (fastEncode 0) = 1 ∧
    (vlqEncode (2 ^ 64 - 1)).length = 10 ∧ (vlqEncode (2 ^ 63)).length = 10 ∧
    (∀ w u v, 1 ≤ w → 2 ^ (w - 1) ≤ u → u < 2 ^ w → v < 2 ^ w →
      (vlqEncode u).length = (w - 1) / 7 + 1 ∧
      (vlqEncode v).length ≤ (vlqEncode u).length) := by
  refine ⟨by simp [vlqEncode], by decide, ?_, ?_, ?_⟩
  · exact vlqEncode_length_eq 9 (2 ^ 64 - 1) (by norm_num) (by norm_num)
  · exact vlqEncode_length_eq 9 (2 ^ 63) (by norm_num) (by norm_num)
  · intro w u v hw hu1 hu2 hv
    have hpow : ∀ q : Nat, (2 : Nat) ^ (7 * q) = 128 ^ q := by
      intro q
      rw [pow_mul]
      norm_num
    have hklo : (128 : Nat) ^ ((w - 1) / 7) ≤ u := by
      calc (128 : Nat) ^ ((w - 1) / 7) = 2 ^ (7 * ((w - 1) / 7)) := (hpow _).symm
      _ ≤ 2 ^ (w - 1) := Nat.pow_le_pow_right (by omega) (by omega)
      _ ≤ u := hu1
    have hkhi : (2 : Nat) ^ w ≤ 128 ^ ((w - 1) / 7 + 1) := by
      calc (2 : Nat) ^ w ≤ 2 ^ (7 * ((w - 1) / 7 + 1)) :=
        Nat.pow_le_pow_right (by omega) (by omega)
      _ = 128 ^ ((w - 1) / 7 + 1) := hpow _
    have hu : (vlqEncode u).length = (w - 1) / 7 + 1 :=
      vlqEncode_length_eq _ u hklo (lt_of_lt_of_le hu2 hkhi)
    refine ⟨hu, ?_⟩
    rw [hu]
    exact vlqEncode_length_le _ v (lt_of_lt_of_le hv hkhi)

theorem encoded_byte_counts_witness :
    (vlqEncode 200).length = (8 - 1) / 7 + 1 ∧
    (vlqEncode 5).length ≤ (vlqEncode 200).length :=
  encoded_byte_counts.2.2.2.2 8 200 5 (by decide) (by decide) (by decide) (by decide)

/-- C8 (counterexample): a truncated source need not produce the end-of-input
error — decoding `[0x00, 0x02]` as `u8` fails with the overflow error, not
the propagated end-of-input error. -/
theorem truncated_source_can_overflow :
    vlqFromReader 8 [0, 2] = .error .overflow ∧ VlqError.overflow ≠ VlqError.eof :=
  ⟨rfl, by decide⟩

/-- C8 (amended): a source that ends before a terminal byte never yields a
value — the primitive decoder returns an error (end-of-input, or overflow if
a group overflows the accumulator first), and the BigUint decoder always
returns the propagated end-of-input error. -/
theorem truncated_source_errors :
    (∀ w, vlqFromReader w [] = .error .eof) ∧
    (∀ w src, (∀ b ∈ src, b &&& 128 = 0) → ∃ e, vlqFromReader w src = .error e) ∧
    (∀ src, (∀ b ∈ src, b &&& 128 ≠ 0) → bigFromReader src = .error .eof) :=
  ⟨fun _ => rfl, fun w src h => vlqFromReaderAux_no_terminal w src 0 1 h,
    bigFromReader_no_terminal⟩

theorem truncated_source_errors_witness :
    (∃ e, vlqFromReader 8 [0, 0] = .error e) ∧ bigFromReader [129] = .error .eof :=
  ⟨truncated_source_errors.2.1 8 [0, 0] (by decide),
    truncated_source_errors.2.2 [129] (by decide)⟩

/-- C9: exact cursor consumption — decoding `encode v` followed by any byte
suffix `s` returns `v` and leaves exactly `s` unread. -/
theorem decode_consumes_exactly (w v : Nat) (s : List Nat) (h : v < 2 ^ w) :
    vlqFromReader w (vlqEncode v ++ s) = .ok (v, s) :=
  vlqFromReader_encode_append w v s h

theorem decode_consumes_exactly_witness :
    vlqFromReader 16 (vlqEncode 300 ++ [7, 8]) = .ok (300, [7, 8]) :=
  decode_consumes_exactly 16 300 [7, 8] (by decide)

/-- C10: wire-format polarity — every byte of `to_writer` output except the
final one has the high bit clear, the final byte has it set (so exactly one
byte per encoding carries bit 7), and a successful `from_reader` stops at
the first byte whose high bit is set, leaving exactly the bytes after it. -/
theorem wire_format_polarity :
    (∀ v, (∀ b ∈ (vlqEncode v).dropLast, b &&& 128 = 0) ∧
      (vlqEncode v).getLastD 0 &&& 128 = 128 ∧
      (vlqEncode v).countP (fun b => b &&& 128 != 0) = 1) ∧
    (∀ w pre b post v r, (∀ x ∈ pre, x &&& 128 = 0) → b &&& 128 ≠ 0 →
      vlqFromReader w (pre ++ b :: post) = .ok (v, r) → r = post) := by
  constructor
  · intro v
    exact ⟨vlqEncode_dropLast_clear v, vlqEncode_getLast_set v, vlqEncode_countP_one v⟩
  · intro w pre b post v r hpre hb h
    exact vlqFromReaderAux_stops w b post hb pre 0 1 v r hpre h

theorem wire_format_polarity_witness :
    ((vlqEncode 60000).getLastD 0 &&& 128 = 128) ∧ ([9] : List Nat) = [9] :=
  ⟨(wire_format_polarity.1 60000).2.1,
    wire_format_polarity.2 16 [3] 200 [9] 9219 [9] (by decide) (by decide) rfl⟩
